import Mathlib

/-!
Verification of the swarm coordination core.

This file gives a shallow embedding of the coordination services of the
repository and proves (or refutes) the specification claims about them.

Embedding conventions:
* JavaScript `Map` objects are modelled as association lists
  `List (String × α)` with `Map.get`/`Map.set`/`Map.delete` semantics
  (`mapGet`, `mapSet`, `mapDelete`); `Map.set` on an existing key updates
  in place, on a fresh key appends, matching JS insertion-order iteration.
* `new Date().toISOString()` timestamps are modelled by a logical clock
  `now : Nat` passed to each operation; all timestamp reads inside one
  operation observe the same tick.
* `uuidv4()` id generation is modelled by requiring each config to carry
  the id that the original would have chosen (`config.id || uuidv4()`).
* Opaque payloads (task results, event data) are modelled as `String`;
  opaque key-value bags (`context`) are omitted, no embedded operation
  reads them.
* Fields that are possibly `undefined`/`null` in the source are `Option`s;
  the JS `===` comparison on such fields (including
  `undefined === undefined`, which is true) is `Option` equality.
-/

/-- JS `Map.get`: the value stored under `k`, if any. -/
def mapGet (m : List (String × α)) (k : String) : Option α :=
  (m.find? (fun p => p.1 == k)).map (·.2)

/-- JS `Map.set`: replace the entry under `k` in place, or append a fresh one. -/
def mapSet (m : List (String × α)) (k : String) (v : α) : List (String × α) :=
  if m.any (fun p => p.1 == k) then
    m.map (fun p => if p.1 == k then (k, v) else p)
  else
    m ++ [(k, v)]

/-- JS `Map.delete`: remove the entry under `k`. -/
def mapDelete (m : List (String × α)) (k : String) : List (String × α) :=
  m.filter (fun p => !(p.1 == k))

/-- JS `Array.from(map.values())` in insertion order. -/
def mapValues (m : List (String × α)) : List α :=
  m.map (·.2)

namespace SwarmSpec

/-- An entry of an agent's task-completion memory
(`{taskId, type, result, timestamp}` pushed in `updateTaskStatus`). -/
structure MemEntry where
  taskId : String
  type_ : String
  result : Option String
  timestamp : Nat
deriving DecidableEq, Repr

/-- Agent record as built by `SwarmService.createAgent`. -/
structure Agent where
  id : String
  name : String
  type_ : String
  capabilities : List String
  swarmId : Option String
  status : String
  createdAt : Nat
  lastActive : Nat
  tasksCompleted : Nat
  currentTask : Option String
  memory : List MemEntry
  role : String
  priority : Int
deriving DecidableEq, Repr

/-- Task record as built by `SwarmService.submitTask`.  `requiredCapabilities`
is an `Option` because `submitTask` never sets the field (the scheduler
guards on `task.requiredCapabilities && Array.isArray(...)`). -/
structure Task where
  id : String
  type_ : String
  description : String
  status : String
  priority : Int
  createdAt : Nat
  swarmId : Option String
  assignedAgents : List String
  dependencies : List String
  requiredCapabilities : Option (List String)
  result : Option String
  progress : Nat
  deadline : Option Nat
  assignedAt : Option Nat
  completedAt : Option Nat
  failedAt : Option Nat
  subtasks : List String
deriving DecidableEq, Repr

/-- Swarm record as built by `SwarmService.createSwarm`.  `sharedMemory`
is an opaque key-value bag, modelled as an association list. -/
structure Swarm where
  id : String
  name : String
  description : String
  createdAt : Nat
  agentCount : Nat
  activeAgents : Nat
  agents : List String
  tasks : List String
  status : String
  sharedMemory : List (String × String)
  owner : String
deriving DecidableEq, Repr

/-- The mutable state of a `SwarmService` instance: its three `Map`s.
Event emission is side-effect free for every operation verified here
(none of the event types published by these operations has an internal
handler registered in `registerEventHandlers`), so no event log is kept. -/
structure SwarmState where
  swarms : List (String × Swarm)
  agents : List (String × Agent)
  tasks : List (String × Task)
deriving DecidableEq, Repr

/-- `config` argument of `createAgent`; `id` is the resolved
`config.id || uuidv4()`. -/
structure AgentConfig where
  id : String
  name : Option String
  type_ : Option String
  capabilities : Option (List String)
  swarmId : Option String
  memory : Option (List MemEntry)
  role : Option String
  priority : Option Int
deriving Repr

/-- `config.priority || 5`: any falsy value (absent or `0`) becomes `5`. -/
def priorityOrDefault (p : Option Int) : Int :=
  match p with
  | some q => if q = 0 then 5 else q
  | none => 5

/-- `SwarmService.createAgent(config)`: build the agent record, store it,
and (when `swarmId` names an existing swarm whose roster does not already
contain the id) append to the swarm roster and bump `agentCount`. -/
def createAgent (s : SwarmState) (config : AgentConfig) (now : Nat) :
    SwarmState × Agent :=
  let agentId := config.id
  let agent : Agent :=
    { id := agentId
      name := config.name.getD ("Agent-" ++ agentId.take 8)
      type_ := config.type_.getD "worker"
      capabilities := config.capabilities.getD []
      swarmId := config.swarmId
      status := "idle"
      createdAt := now
      lastActive := now
      tasksCompleted := 0
      currentTask := none
      memory := config.memory.getD []
      role := config.role.getD "general"
      priority := priorityOrDefault config.priority }
  let s1 : SwarmState := { s with agents := mapSet s.agents agentId agent }
  let s2 : SwarmState :=
    match agent.swarmId with
    | some sid =>
      match mapGet s1.swarms sid with
      | some swarm =>
        if swarm.agents.contains agentId then s1
        else
          { s1 with
            swarms := mapSet s1.swarms sid
              { swarm with
                agents := swarm.agents ++ [agentId]
                agentCount := swarm.agentCount + 1 } }
      | none => s1
    | none => s1
  (s2, agent)

/-- `config` argument of `createSwarm`; `agents` is the initial roster of
agent specs (`[]` models an absent / non-array `config.agents`). -/
structure SwarmConfig where
  id : String
  name : Option String
  description : Option String
  initialMemory : Option (List (String × String))
  owner : Option String
  agents : List AgentConfig
deriving Repr

/-- `SwarmService.createSwarm(config)`: store the swarm (status
`initializing`), then for each agent spec call `createAgent` with the
swarm's id bound, push the new agent id onto the roster and bump
`agentCount` (in addition to the push/bump `createAgent` itself performs),
then set status `ready`.  Returns the final swarm record. -/
def createSwarm (s : SwarmState) (config : SwarmConfig) (now : Nat) :
    SwarmState × Option Swarm :=
  let swarmId := config.id
  let swarm : Swarm :=
    { id := swarmId
      name := config.name.getD ("Swarm-" ++ swarmId.take 8)
      description := config.description.getD "Agent swarm"
      createdAt := now
      agentCount := 0
      activeAgents := 0
      agents := []
      tasks := []
      status := "initializing"
      sharedMemory := config.initialMemory.getD []
      owner := config.owner.getD "system" }
  let s1 : SwarmState := { s with swarms := mapSet s.swarms swarmId swarm }
  let s2 : SwarmState := config.agents.foldl
    (fun st agentConfig =>
      let (st1, agent) := createAgent st { agentConfig with swarmId := some swarmId } now
      match mapGet st1.swarms swarmId with
      | some sw =>
        { st1 with
          swarms := mapSet st1.swarms swarmId
            { sw with
              agents := sw.agents ++ [agent.id]
              agentCount := sw.agentCount + 1 } }
      | none => st1)
    s1
  match mapGet s2.swarms swarmId with
  | some sw =>
    let sw2 := { sw with status := "ready" }
    ({ s2 with swarms := mapSet s2.swarms swarmId sw2 }, some sw2)
  | none => (s2, none)

/-- `SwarmService.getAgents(swarmId)`: all agents, or those whose
`swarmId` matches the (truthy) filter. -/
def getAgents (s : SwarmState) (swarmId : Option String) : List Agent :=
  match swarmId with
  | some sid => (mapValues s.agents).filter (fun a => a.swarmId == some sid)
  | none => mapValues s.agents

/-- `config` argument of `submitTask`; `id` is the resolved
`config.id || uuidv4()`. -/
structure TaskConfig where
  id : String
  type_ : Option String
  description : Option String
  priority : Option Int
  swarmId : Option String
  dependencies : Option (List String)
  deadline : Option Nat
deriving Repr

/-- The `unfinishedDependencies` filter of `scheduleTask` /
`checkDependentTasks`: dependency ids whose task is missing from the map
or whose status is not `completed`. -/
def unfinishedDependencies (s : SwarmState) (t : Task) : List String :=
  t.dependencies.filter (fun depId =>
    match mapGet s.tasks depId with
    | none => true
    | some depTask => depTask.status != "completed")

/-- The candidate predicate of `scheduleTask`: swarm-scoped when the task
has a (truthy) `swarmId`, agent `idle`, and — when the task carries a
`requiredCapabilities` array — every required capability present. -/
def candidateFilter (task : Task) (agent : Agent) : Bool :=
  if task.swarmId.isSome && agent.swarmId != task.swarmId then false
  else if agent.status != "idle" then false
  else
    match task.requiredCapabilities with
    | some caps => caps.all (fun cap => agent.capabilities.contains cap)
    | none => true

/-- The comparator passed to `candidateAgents.sort`: priority descending,
then `lastActive` ascending (numeric date difference). -/
def schedCmp (a b : Agent) : Int :=
  if a.priority ≠ b.priority then b.priority - a.priority
  else (a.lastActive : Int) - (b.lastActive : Int)

/-- `a` sorts no later than `b` under `schedCmp`. -/
def schedLE (a b : Agent) : Bool :=
  decide (schedCmp a b ≤ 0)

/-- Stable insertion into a sorted list, keeping the inserted element
before later elements that compare equal. -/
def insertBy (le : α → α → Bool) (x : α) : List α → List α
  | [] => [x]
  | y :: ys => if le x y then x :: y :: ys else y :: insertBy le x ys

/-- Stable sort by `le` (JS `Array.prototype.sort` is stable per ES2019;
only head-minimality is used below). -/
def sortBy (le : α → α → Bool) : List α → List α
  | [] => []
  | x :: xs => insertBy le x (sortBy le xs)

/-- The candidate pool `scheduleTask` builds for a task. -/
def scheduleCandidates (s : SwarmState) (task : Task) : List Agent :=
  (mapValues s.agents).filter (candidateFilter task)

/-- `SwarmService.scheduleTask(taskId)`: null on a missing task; null when
the dependency list is non-empty and some dependency is unfinished;
otherwise rank the candidate pool and assign the top candidate, marking it
busy and the task assigned.  Returns the updated state together with the
`{task, agent}` pair (or `none`). -/
def scheduleTask (s : SwarmState) (taskId : String) (now : Nat) :
    SwarmState × Option (Task × Agent) :=
  match mapGet s.tasks taskId with
  | none => (s, none)
  | some task =>
    if task.dependencies.length > 0 &&
        (unfinishedDependencies s task).length > 0 then
      (s, none)
    else
      let candidateAgents := scheduleCandidates s task
      match sortBy schedLE candidateAgents with
      | [] => (s, none)
      | assignedAgent :: _ =>
        let agent2 : Agent :=
          { assignedAgent with
            status := "busy"
            currentTask := some taskId
            lastActive := now }
        let task2 : Task :=
          { task with
            status := "assigned"
            assignedAgents := task.assignedAgents ++ [assignedAgent.id]
            assignedAt := some now }
        ({ s with
            agents := mapSet s.agents assignedAgent.id agent2
            tasks := mapSet s.tasks taskId task2 },
         some (task2, agent2))

/-- `SwarmService.submitTask(config)`: build a pending task, store it,
append to the owning swarm's task list when present, then immediately
invoke `scheduleTask`.  Returns the task as finally stored. -/
def submitTask (s : SwarmState) (config : TaskConfig) (now : Nat) :
    SwarmState × Option Task :=
  let taskId := config.id
  let task : Task :=
    { id := taskId
      type_ := config.type_.getD "general"
      description := config.description.getD ""
      status := "pending"
      priority := priorityOrDefault config.priority
      createdAt := now
      swarmId := config.swarmId
      assignedAgents := []
      dependencies := config.dependencies.getD []
      requiredCapabilities := none
      result := none
      progress := 0
      deadline := config.deadline
      assignedAt := none
      completedAt := none
      failedAt := none
      subtasks := [] }
  let s1 : SwarmState := { s with tasks := mapSet s.tasks taskId task }
  let s2 : SwarmState :=
    match config.swarmId with
    | some sid =>
      match mapGet s1.swarms sid with
      | some sw =>
        { s1 with swarms := mapSet s1.swarms sid { sw with tasks := sw.tasks ++ [taskId] } }
      | none => s1
    | none => s1
  let s3 := (scheduleTask s2 taskId now).1
  (s3, mapGet s3.tasks taskId)

/-- The `updates` patch of `updateTaskStatus`, restricted to the fields the
service's own callers pass (`status`, `result`, `progress`); `Object.assign`
applies exactly the keys present. -/
structure TaskUpdates where
  status : Option String
  result : Option String
  progress : Option Nat
deriving Repr

/-- `Object.assign(task, updates)` for a `TaskUpdates` patch. -/
def applyUpdates (t : Task) (u : TaskUpdates) : Task :=
  { t with
    status := u.status.getD t.status
    result := match u.result with | some r => some r | none => t.result
    progress := u.progress.getD t.progress }

/-- `push` a memory entry, then cap at 100 keeping the most recent
(`memory.slice(-100)`). -/
def memPush (m : List MemEntry) (e : MemEntry) : List MemEntry :=
  let m2 := m ++ [e]
  if m2.length > 100 then m2.drop (m2.length - 100) else m2

/-- The transform the completed branch of `updateTaskStatus` applies to
each assigned agent: idle, task cleared, counter bumped, completion memory
entry `{taskId, type, result, timestamp}` appended under the cap. -/
def releasedAgent (t : Task) (taskId : String) (now : Nat) (a : Agent) : Agent :=
  { a with
    status := "idle"
    currentTask := none
    tasksCompleted := a.tasksCompleted + 1
    lastActive := now
    memory := memPush a.memory
      { taskId := taskId, type_ := t.type_, result := t.result, timestamp := now } }

/-- One step of the completion release loop over `assignedAgents`: a
missing agent id is skipped. -/
def releaseStep (t : Task) (taskId : String) (now : Nat)
    (ags : List (String × Agent)) (agentId : String) : List (String × Agent) :=
  match mapGet ags agentId with
  | none => ags
  | some agent => mapSet ags agentId (releasedAgent t taskId now agent)

/-- The completed-branch agent loop of `updateTaskStatus`: every agent in
`t.assignedAgents` that exists is set idle, its current task cleared,
`tasksCompleted` bumped, and a completion memory entry appended (capped). -/
def releaseAssignedAgents (st : SwarmState) (t : Task) (taskId : String) (now : Nat) :
    SwarmState :=
  { st with agents := t.assignedAgents.foldl (releaseStep t taskId now) st.agents }

/-- The failed-branch agent loop of `updateTaskStatus`: assigned agents are
freed (idle, task cleared) without any memory entry. -/
def freeAssignedAgents (st : SwarmState) (t : Task) (now : Nat) : SwarmState :=
  { st with
    agents := t.assignedAgents.foldl
      (fun ags agentId =>
        match mapGet ags agentId with
        | none => ags
        | some agent =>
          mapSet ags agentId
            { agent with status := "idle", currentTask := none, lastActive := now })
      st.agents }

/-- `SwarmService.checkDependentTasks(completedTaskId)`: snapshot the
pending tasks whose dependency list contains the completed id, and for each
whose dependencies are all completed (re-checked against the current map)
invoke `scheduleTask`. -/
def checkDependentTasks (s : SwarmState) (completedTaskId : String) (now : Nat) :
    SwarmState :=
  let dependentTasks := (mapValues s.tasks).filter (fun task =>
    task.dependencies.contains completedTaskId && task.status == "pending")
  dependentTasks.foldl
    (fun st task =>
      if (unfinishedDependencies st task).length == 0 then
        (scheduleTask st task.id now).1
      else st)
    s

/-- `SwarmService.updateTaskStatus(taskId, updates)`: merge the patch; on
`status: 'completed'` set `completedAt`, release assigned agents with a
memory entry, and re-evaluate dependents; on `status: 'failed'` set
`failedAt` and free assigned agents; otherwise just the merge. -/
def updateTaskStatus (s : SwarmState) (taskId : String) (u : TaskUpdates) (now : Nat) :
    SwarmState × Option Task :=
  match mapGet s.tasks taskId with
  | none => (s, none)
  | some task0 =>
    let task1 := applyUpdates task0 u
    if u.status == some "completed" then
      let task2 := { task1 with completedAt := some now }
      let s1 : SwarmState := { s with tasks := mapSet s.tasks taskId task2 }
      let s2 := releaseAssignedAgents s1 task2 taskId now
      let s3 := checkDependentTasks s2 taskId now
      (s3, some task2)
    else if u.status == some "failed" then
      let task2 := { task1 with failedAt := some now }
      let s1 : SwarmState := { s with tasks := mapSet s.tasks taskId task2 }
      let s2 := freeAssignedAgents s1 task2 now
      (s2, some task2)
    else
      ({ s with tasks := mapSet s.tasks taskId task1 }, some task1)

/-- `SwarmService.checkPendingTasks()`: sweep all pending tasks sorted by
priority descending and try to schedule each. -/
def checkPendingTasks (s : SwarmState) (now : Nat) : SwarmState :=
  let pendingTasks := sortBy (fun a b => decide ((b.priority - a.priority : Int) ≤ 0))
    ((mapValues s.tasks).filter (fun task => task.status == "pending"))
  pendingTasks.foldl (fun st task => (scheduleTask st task.id now).1) s

/-! ## AgentService (`deleteAgent`, `cancelTask`, `executeTask` memory cap)

The `AgentService` keeps its own agent map and an `activeTasks` map of
task-execution records, distinct from the `SwarmService` records above. -/

/-- An entry of an `AgentService` agent's memory
(`{task, context, result, timestamp}` pushed in `executeTask`). -/
structure AMemEntry where
  task : String
  context : String
  result : String
  timestamp : Nat
deriving DecidableEq, Repr

/-- Agent record as built by `AgentService.createAgent` (the opaque
`context` bag and the message history, untouched by the operations
verified here, are omitted). -/
structure AAgent where
  id : String
  status : String
  swarmId : Option String
  createdAt : Nat
  lastActive : Nat
  tasksCompleted : Nat
  averageResponseTime : Int
  capabilities : List String
  memory : List AMemEntry
deriving DecidableEq, Repr

/-- An `activeTasks` record as built by `AgentService.executeTask`. -/
structure ActiveTask where
  id : String
  agentId : String
  status : String
  startTime : Nat
  endTime : Option Nat
  result : Option String
  error : Option String
deriving DecidableEq, Repr

/-- The mutable state of an `AgentService` instance (the unused
`taskQueue` is omitted). -/
structure AServiceState where
  agents : List (String × AAgent)
  activeTasks : List (String × ActiveTask)
deriving DecidableEq, Repr

/-- `AgentService.cancelTask(taskId)`: if the task is active, mark the
record `cancelled`, delete it from `activeTasks`, and set its agent idle.
The record itself is discarded; nothing transitions to `pending`. -/
def cancelTask (st : AServiceState) (taskId : String) : AServiceState :=
  match mapGet st.activeTasks taskId with
  | none => st
  | some task =>
    let st1 : AServiceState := { st with activeTasks := mapDelete st.activeTasks taskId }
    match mapGet st1.agents task.agentId with
    | some agent =>
      { st1 with agents := mapSet st1.agents task.agentId { agent with status := "idle" } }
    | none => st1

/-- `AgentService.deleteAgent(agentId)`: throws `Agent ... not found` when
the agent is absent; otherwise cancels every active task assigned to the
agent and removes the agent record, returning `true`. -/
def deleteAgent (st : AServiceState) (agentId : String) :
    Except String (AServiceState × Bool) :=
  match mapGet st.agents agentId with
  | none => Except.error ("Agent " ++ agentId ++ " not found")
  | some _ =>
    let st1 := (mapValues st.activeTasks).foldl
      (fun acc task => if task.agentId == agentId then cancelTask acc task.id else acc)
      st
    Except.ok ({ st1 with agents := mapDelete st1.agents agentId }, true)

/-- `push` an `AgentService` memory entry, then cap at 100 keeping the most
recent (`memory.slice(-100)` in `executeTask`). -/
def aMemPush (m : List AMemEntry) (e : AMemEntry) : List AMemEntry :=
  let m2 := m ++ [e]
  if m2.length > 100 then m2.drop (m2.length - 100) else m2

/-! ## Event buses

`SwarmEventBus` (the distributed bus) and the Redis paths of
`SwarmService`.  Subscribers are identified by handler ids; `emit` on the
`eventemitter3` emitter calls, once per registration, every handler
registered for exactly the emitted type. -/

/-- A serialized distributed event.  `sourceInstanceId` is an `Option`
because `SwarmService.publishEvent` serializes events without the field. -/
structure BusEvent where
  id : String
  type_ : String
  data : String
  timestamp : Nat
  sourceInstanceId : Option String
deriving DecidableEq, Repr

/-- Local `emitter.emit(type, data)`: one delivery `(handlerId, data)` per
registration of that exact type, in registration order. -/
def emitLocal (subs : List (String × Nat)) (eventType : String) (data : String) :
    List (Nat × String) :=
  (subs.filter (fun p => p.1 == eventType)).map (fun p => (p.2, data))

/-- `SwarmEventBus.publish(eventType, data)`: always emit locally; when
Redis is connected additionally serialize
`{id, type, data, timestamp, sourceInstanceId}` and broadcast it.  Returns
(local deliveries, messages broadcast to the channel). -/
def busPublish (instanceId : String) (isRedisConnected : Bool)
    (subs : List (String × Nat)) (eventId : String) (eventType : String)
    (data : String) (now : Nat) : List (Nat × String) × List BusEvent :=
  let localDeliveries := emitLocal subs eventType data
  if isRedisConnected then
    (localDeliveries,
      [{ id := eventId, type_ := eventType, data := data, timestamp := now,
         sourceInstanceId := some instanceId }])
  else
    (localDeliveries, [])

/-- `SwarmEventBus.handleRedisMessage`: drop the (already deserialized)
event when its `sourceInstanceId` equals this instance's id, otherwise
emit it to local listeners; nothing is re-broadcast to the channel. -/
def handleRedisMessage (instanceId : String) (subs : List (String × Nat))
    (event : BusEvent) : List (Nat × String) × List BusEvent :=
  if event.sourceInstanceId == some instanceId then ([], [])
  else (emitLocal subs event.type_ event.data, [])

/-- The Redis payload `SwarmService.publishEvent` serializes:
`{id, type, data, timestamp}` — no `sourceInstanceId` field. -/
def swarmPublishRedisPayload (eventId : String) (eventType : String)
    (data : String) (now : Nat) : BusEvent :=
  { id := eventId, type_ := eventType, data := data, timestamp := now,
    sourceInstanceId := none }

/-- `this.instanceId` of a `SwarmService`: the constructor (and every other
method) never assigns it, so it is always `undefined`. -/
def swarmServiceInstanceId : Option String := none

/-- `SwarmService.handleRedisEvent(event)`: drop when
`event.sourceInstanceId === this.instanceId` (JS `===`, where
`undefined === undefined` holds), otherwise emit locally. -/
def handleRedisEvent (instanceId : Option String) (subs : List (String × Nat))
    (event : BusEvent) : List (Nat × String) :=
  if event.sourceInstanceId == instanceId then []
  else emitLocal subs event.type_ event.data

/-! ## Association-list map lemmas -/

theorem mapGet_nil (k : String) : mapGet ([] : List (String × α)) k = none := rfl

theorem mapGet_cons (p : String × α) (ps : List (String × α)) (k : String) :
    mapGet (p :: ps) k = if p.1 == k then some p.2 else mapGet ps k := by
  by_cases h : p.1 == k
  · simp [mapGet, List.find?_cons_of_pos _ h, h]
  · simp [mapGet, List.find?_cons_of_neg _ h, h]

theorem mapGet_append (m m' : List (String × α)) (k : String) :
    mapGet (m ++ m') k =
      match mapGet m k with
      | some v => some v
      | none => mapGet m' k := by
  induction m with
  | nil => simp [mapGet_nil]
  | cons p ps ih =>
    rw [List.cons_append, mapGet_cons, mapGet_cons]
    by_cases h : p.1 == k
    · simp [h]
    · simp [h, ih]

theorem mapGet_eq_none_of_not_any (m : List (String × α)) (k : String)
    (h : ¬ m.any (fun q => q.1 == k)) : mapGet m k = none := by
  induction m with
  | nil => rfl
  | cons p ps ih =>
    rw [mapGet_cons]
    have hp : ¬(p.1 == k) = true := fun hp => h (by simp [List.any_cons, hp])
    rw [if_neg hp]
    exact ih (fun hh => h (by simp [List.any_cons]; right; simpa using hh))

theorem mapGet_map_subst_self (m : List (String × α)) (k : String) (v : α)
    (hany : m.any (fun q => q.1 == k) = true) :
    mapGet (m.map (fun q => if q.1 == k then (k, v) else q)) k = some v := by
  induction m with
  | nil => simp at hany
  | cons p ps ih =>
    rw [List.map_cons]
    by_cases hp : p.1 == k
    · have he : (if p.1 == k then (k, v) else p) = (k, v) := by simp [hp]
      rw [he, mapGet_cons, if_pos (by simp)]
    · have he : (if p.1 == k then (k, v) else p) = p := by simp [hp]
      rw [he, mapGet_cons, if_neg hp]
      apply ih
      rcases List.any_eq_true.mp hany with ⟨x, hxmem, hxk⟩
      rcases List.mem_cons.mp hxmem with hxp | hxps
      · exact absurd (hxp ▸ hxk) hp
      · exact List.any_eq_true.mpr ⟨x, hxps, hxk⟩

theorem mapGet_map_subst_ne (m : List (String × α)) (k k' : String) (v : α)
    (h : k' ≠ k) :
    mapGet (m.map (fun q => if q.1 == k then (k, v) else q)) k' = mapGet m k' := by
  induction m with
  | nil => rfl
  | cons p ps ih =>
    rw [List.map_cons]
    by_cases hp : p.1 == k
    · have he : (if p.1 == k then (k, v) else p) = (k, v) := by simp [hp]
      have hpk : p.1 = k := by simpa using hp
      rw [he, mapGet_cons, mapGet_cons, if_neg (by simp; exact fun hh => h hh.symm),
        if_neg (by simp [hpk]; exact fun hh => h hh.symm)]
      exact ih
    · have he : (if p.1 == k then (k, v) else p) = p := by simp [hp]
      rw [he, mapGet_cons, mapGet_cons]
      by_cases hk' : p.1 == k'
      · simp [hk']
      · rw [if_neg hk', if_neg hk']
        exact ih

theorem mapGet_mapSet_self (m : List (String × α)) (k : String) (v : α) :
    mapGet (mapSet m k v) k = some v := by
  by_cases hany : m.any (fun q => q.1 == k)
  · rw [mapSet, if_pos hany]
    exact mapGet_map_subst_self m k v hany
  · rw [mapSet, if_neg hany, mapGet_append,
      mapGet_eq_none_of_not_any m k hany]
    simp [mapGet_cons]

theorem mapGet_mapSet_ne (m : List (String × α)) (k k' : String) (v : α)
    (h : k' ≠ k) : mapGet (mapSet m k v) k' = mapGet m k' := by
  by_cases hany : m.any (fun q => q.1 == k)
  · rw [mapSet, if_pos hany]
    exact mapGet_map_subst_ne m k k' v h
  · rw [mapSet, if_neg hany, mapGet_append]
    cases hm : mapGet m k' with
    | some w => rfl
    | none =>
      simp only []
      rw [mapGet_cons, if_neg (by simp; exact fun hh => h hh.symm), mapGet_nil]

/-- The keys of an association-list map are pairwise distinct. -/
def keysUnique (m : List (String × α)) : Prop := (m.map (·.1)).Nodup

instance (m : List (String × α)) : Decidable (keysUnique m) := by
  unfold keysUnique; infer_instance

theorem keys_mapSet_of_any (m : List (String × α)) (k : String) (v : α)
    (hany : m.any (fun q => q.1 == k) = true) :
    (mapSet m k v).map (·.1) = m.map (·.1) := by
  rw [mapSet, if_pos hany, List.map_map]
  apply List.map_congr_left
  intro p _
  by_cases hp : p.1 = k
  · simp [hp]
  · simp [hp]

theorem keysUnique_mapSet (m : List (String × α)) (k : String) (v : α)
    (h : keysUnique m) : keysUnique (mapSet m k v) := by
  by_cases hany : m.any (fun q => q.1 == k)
  · unfold keysUnique
    rw [keys_mapSet_of_any m k v hany]
    exact h
  · unfold keysUnique
    rw [mapSet, if_neg hany, List.map_append]
    rw [List.nodup_append]
    refine ⟨h, by simp, ?_⟩
    intro x hx hx'
    simp at hx'
    rcases List.mem_map.mp hx with ⟨p, hpmem, hpk⟩
    exact hany (List.any_eq_true.mpr ⟨p, hpmem, by simp [hpk, hx']⟩)

theorem mapGet_eq_some_of_mem_unique (m : List (String × α)) (k : String) (v : α)
    (h : keysUnique m) (hmem : (k, v) ∈ m) : mapGet m k = some v := by
  induction m with
  | nil => simp at hmem
  | cons p ps ih =>
    rcases List.mem_cons.mp hmem with hp | hps
    · rw [← hp, mapGet_cons, if_pos (by simp)]
    · have hk : k ∈ ps.map (·.1) := List.mem_map.mpr ⟨(k, v), hps, rfl⟩
      have hnd := h
      unfold keysUnique at hnd
      rw [List.map_cons, List.nodup_cons] at hnd
      have hpk : p.1 ≠ k := fun he => hnd.1 (he ▸ hk)
      rw [mapGet_cons, if_neg (by simpa using hpk)]
      exact ih hnd.2 hps

theorem mem_mapValues (m : List (String × α)) (a : α) :
    a ∈ mapValues m ↔ ∃ k, (k, a) ∈ m := by
  unfold mapValues
  constructor
  · intro h
    rcases List.mem_map.mp h with ⟨p, hp, he⟩
    exact ⟨p.1, by rwa [show (p.1, a) = p from by rw [← he]]⟩
  · rintro ⟨k, hk⟩
    exact List.mem_map.mpr ⟨(k, a), hk, rfl⟩

/-! ## Sorting lemmas -/

theorem mem_insertBy (le : α → α → Bool) (x y : α) (l : List α) :
    y ∈ insertBy le x l ↔ y = x ∨ y ∈ l := by
  induction l with
  | nil => simp [insertBy]
  | cons z zs ih =>
    rw [insertBy]
    by_cases h : le x z
    · simp [h]
    · rw [if_neg h]
      simp only [List.mem_cons, ih]
      tauto

theorem mem_sortBy (le : α → α → Bool) (y : α) (l : List α) :
    y ∈ sortBy le l ↔ y ∈ l := by
  induction l with
  | nil => simp [sortBy]
  | cons z zs ih =>
    rw [sortBy, mem_insertBy]
    simp only [List.mem_cons, ih]

theorem sortBy_eq_nil_iff (le : α → α → Bool) (l : List α) :
    sortBy le l = [] ↔ l = [] := by
  cases l with
  | nil => simp [sortBy]
  | cons z zs =>
    simp only [sortBy]
    constructor
    · intro h
      have : z ∈ insertBy le z (sortBy le zs) := (mem_insertBy le z z _).mpr (Or.inl rfl)
      rw [h] at this
      simp at this
    · intro h
      simp at h

theorem pairwise_insertBy (le : α → α → Bool)
    (htrans : ∀ a b c, le a b = true → le b c = true → le a c = true)
    (htotal : ∀ a b, le a b = true ∨ le b a = true)
    (x : α) (l : List α) (h : l.Pairwise (fun a b => le a b = true)) :
    (insertBy le x l).Pairwise (fun a b => le a b = true) := by
  induction l with
  | nil => simp [insertBy]
  | cons z zs ih =>
    rw [insertBy]
    by_cases hxz : le x z
    · rw [if_pos hxz]
      rw [List.pairwise_cons]
      refine ⟨?_, h⟩
      intro b hb
      rcases List.mem_cons.mp hb with hbz | hbzs
      · exact hbz ▸ hxz
      · have hzb : le z b := (List.pairwise_cons.mp h).1 b hbzs
        exact htrans x z b hxz hzb
    · rw [if_neg hxz]
      have hzx : le z x := (htotal x z).resolve_left (by simpa using hxz)
      rw [List.pairwise_cons] at h
      rw [List.pairwise_cons]
      refine ⟨?_, ih h.2⟩
      intro b hb
      rcases (mem_insertBy le x b zs).mp hb with hbx | hbzs
      · exact hbx ▸ hzx
      · exact h.1 b hbzs

theorem pairwise_sortBy (le : α → α → Bool)
    (htrans : ∀ a b c, le a b = true → le b c = true → le a c = true)
    (htotal : ∀ a b, le a b = true ∨ le b a = true)
    (l : List α) : (sortBy le l).Pairwise (fun a b => le a b = true) := by
  induction l with
  | nil => simp [sortBy]
  | cons z zs ih => exact pairwise_insertBy le htrans htotal z _ ih

/-- The head of `sortBy le l` is `le`-below every element of `l`. -/
theorem sortBy_head_min (le : α → α → Bool)
    (htrans : ∀ a b c, le a b = true → le b c = true → le a c = true)
    (htotal : ∀ a b, le a b = true ∨ le b a = true)
    (l : List α) (b : α) (rest : List α) (hsort : sortBy le l = b :: rest)
    (c : α) (hc : c ∈ l) : le b c = true := by
  have hcmem : c ∈ b :: rest := by
    rw [← hsort, mem_sortBy]
    exact hc
  rcases List.mem_cons.mp hcmem with hcb | hcrest
  · rw [hcb]
    exact (htotal b b).elim id id
  · have hp := pairwise_sortBy le htrans htotal l
    rw [hsort, List.pairwise_cons] at hp
    exact hp.1 c hcrest

/-! ## Comparator facts -/

theorem schedLE_iff (a b : Agent) :
    schedLE a b = true ↔
      (a.priority > b.priority ∨
        (a.priority = b.priority ∧ a.lastActive ≤ b.lastActive)) := by
  unfold schedLE schedCmp
  by_cases h : a.priority = b.priority
  · rw [if_neg (fun hh => hh h)]
    simp only [decide_eq_true_eq]
    omega
  · rw [if_pos h]
    simp only [decide_eq_true_eq]
    omega

theorem schedLE_total (a b : Agent) : schedLE a b = true ∨ schedLE b a = true := by
  rw [schedLE_iff, schedLE_iff]
  omega

theorem schedLE_trans (a b c : Agent)
    (hab : schedLE a b = true) (hbc : schedLE b c = true) : schedLE a c = true := by
  rw [schedLE_iff] at hab hbc ⊢
  omega

/-- A dependency id is blocked: its task is absent from the map, or its
status is not `completed` (exactly the `unfinishedDependencies` filter
predicate). -/
def depBlocked (s : SwarmState) (d : String) : Bool :=
  match mapGet s.tasks d with
  | none => true
  | some depTask => depTask.status != "completed"

theorem mem_unfinishedDependencies (s : SwarmState) (t : Task) (d : String)
    (hd : d ∈ t.dependencies) (hb : depBlocked s d = true) :
    d ∈ unfinishedDependencies s t :=
  List.mem_filter.mpr ⟨hd, hb⟩

/-- C1 (dependency gating): when a task's dependency list is non-empty and
some referenced dependency is missing from the task map or not `completed`,
`scheduleTask` returns `null` and leaves the state exactly as it was — in
particular the task's status (`pending` or otherwise) is unchanged, so a
task with an uncompleted or unknown dependency never leaves `pending`
through the scheduler. -/
theorem claim1_dependency_gating (s : SwarmState) (taskId : String) (now : Nat)
    (t : Task) (hget : mapGet s.tasks taskId = some t)
    (hdep : t.dependencies ≠ [])
    (d : String) (hd : d ∈ t.dependencies) (hblocked : depBlocked s d = true) :
    scheduleTask s taskId now = (s, none) := by
  have hmem : d ∈ unfinishedDependencies s t :=
    mem_unfinishedDependencies s t d hd hblocked
  have h1 : 0 < t.dependencies.length := List.length_pos.mpr hdep
  have h2 : 0 < (unfinishedDependencies s t).length :=
    List.length_pos.mpr (List.ne_nil_of_mem hmem)
  simp only [scheduleTask, hget]
  rw [if_pos (by simp [h1, h2])]

/-- Baseline task record for concrete test states: pending, priority 5, no
dependencies, as `submitTask` would build it. -/
def task0 : Task :=
  { id := "", type_ := "general", description := "", status := "pending", priority := 5,
    createdAt := 0, swarmId := none, assignedAgents := [], dependencies := [],
    requiredCapabilities := none, result := none, progress := 0, deadline := none,
    assignedAt := none, completedAt := none, failedAt := none, subtasks := [] }

/-- Baseline agent record for concrete test states: idle, priority 5, as
`createAgent` would build it. -/
def agent0 : Agent :=
  { id := "", name := "", type_ := "worker", capabilities := [], swarmId := none,
    status := "idle", createdAt := 0, lastActive := 0, tasksCompleted := 0,
    currentTask := none, memory := [], role := "general", priority := 5 }

/-- Concrete state for the C1 witness: pending `"a"`, and `"b"` depending on `"a"`. -/
def c1State : SwarmState :=
  { swarms := [], agents := [],
    tasks := [("a", { task0 with id := "a" }),
              ("b", { task0 with id := "b", dependencies := ["a"] })] }

/-- Witness for C1: task `"b"` depends on the still-pending task `"a"`, so
scheduling `"b"` returns `null` and changes nothing. -/
theorem claim1_dependency_gating_witness :
    scheduleTask c1State "b" 3 = (c1State, none) := by
  apply claim1_dependency_gating (t := { task0 with id := "b", dependencies := ["a"] })
    (d := "a")
  · decide
  · decide
  · decide
  · decide

/-- C2 (scheduler ranking): when the dependency gate passes and the
candidate pool (idle agents, swarm-scoped when the task has a `swarmId`,
capability-superset when the task carries `requiredCapabilities`) is
non-empty, `scheduleTask` assigns a candidate that beats every candidate
on priority, with ties broken by earliest `lastActive` — in particular,
with two idle candidates of priorities 8 and 3 it always selects the
priority-8 agent. -/
theorem claim2_scheduler_ranking (s : SwarmState) (taskId : String) (now : Nat)
    (t : Task) (hget : mapGet s.tasks taskId = some t)
    (hdeps : t.dependencies = [] ∨ unfinishedDependencies s t = [])
    (hne : scheduleCandidates s t ≠ []) :
    ∃ best, best ∈ scheduleCandidates s t ∧
      (scheduleTask s taskId now).2 = some
        ({ t with status := "assigned",
                  assignedAgents := t.assignedAgents ++ [best.id],
                  assignedAt := some now },
         { best with status := "busy", currentTask := some taskId, lastActive := now }) ∧
      ∀ c ∈ scheduleCandidates s t,
        best.priority > c.priority ∨
          (best.priority = c.priority ∧ best.lastActive ≤ c.lastActive) := by
  have hgate : (decide (t.dependencies.length > 0) &&
      decide ((unfinishedDependencies s t).length > 0)) = false := by
    rcases hdeps with h | h <;> simp [h]
  cases hsort : sortBy schedLE (scheduleCandidates s t) with
  | nil => exact absurd ((sortBy_eq_nil_iff schedLE _).mp hsort) hne
  | cons best rest =>
    refine ⟨best, ?_, ?_, ?_⟩
    · rw [← mem_sortBy schedLE, hsort]
      exact List.mem_cons_self best rest
    · simp only [scheduleTask, hget, hgate, Bool.false_eq_true, if_false, hsort]
    · intro c hc
      have := sortBy_head_min schedLE schedLE_trans schedLE_total
        (scheduleCandidates s t) best rest hsort c hc
      exact (schedLE_iff best c).mp this

/-- Concrete state for the C2 witness: idle agents of priorities 3 and 8,
and a task with no capability requirement. -/
def c2State : SwarmState :=
  { swarms := [],
    agents := [("lo", { agent0 with id := "lo", priority := 3 }),
               ("hi", { agent0 with id := "hi", priority := 8 })],
    tasks := [("t", { task0 with id := "t" })] }

/-- The task of the C2 witness state. -/
def c2Task : Task := { task0 with id := "t" }

/-- Witness for C2 at the spec's own example: two idle candidates with
priorities 8 and 3; the assigned agent outranks every candidate, hence is
the priority-8 one. -/
theorem claim2_scheduler_ranking_witness :
    ∃ best, best ∈ scheduleCandidates c2State c2Task ∧
      (scheduleTask c2State "t" 4).2 = some
        ({ c2Task with status := "assigned", assignedAgents := [best.id], assignedAt := some 4 },
         { best with status := "busy", currentTask := some "t", lastActive := 4 }) ∧
      ∀ c ∈ scheduleCandidates c2State c2Task,
        best.priority > c.priority ∨
          (best.priority = c.priority ∧ best.lastActive ≤ c.lastActive) := by
  apply claim2_scheduler_ranking c2State "t" 4 c2Task
  · decide
  · exact Or.inl rfl
  · decide

/-- Concrete state for the C3 counterexample: two idle agents of equal
priority and one pending task with no dependencies. -/
def c3State : SwarmState :=
  { swarms := [],
    agents := [("a1", { agent0 with id := "a1" }), ("a2", { agent0 with id := "a2" })],
    tasks := [("t", { task0 with id := "t" })] }

/-- C3 counterexample: `scheduleTask` never checks the task's status, so
after a first call assigns agent `"a1"`, a second call with no intervening
state change assigns `"a2"` as well — the second call is not a no-op and
`assignedAgents` grows to size 2, refuting the claimed idempotence. -/
theorem claim3_idempotence_counterexample :
    (scheduleTask c3State "t" 1).2 ≠ none ∧
    (scheduleTask (scheduleTask c3State "t" 1).1 "t" 2).2 ≠ none ∧
    (mapGet (scheduleTask (scheduleTask c3State "t" 1).1 "t" 2).1.tasks "t").map
      (fun tk => tk.assignedAgents) = some ["a1", "a2"] := by
  decide

/-- C3 amended: the no-op half of the claim holds — whenever `scheduleTask`
returns `null` it leaves the state unchanged, and a repeated call (at any
later tick) is the same `null` no-op.  After a call that assigns, however,
a second call is not in general a no-op: the scheduler does not examine the
task's status, so any remaining eligible idle agent is assigned as well
(see the counterexample). -/
theorem claim3_idempotence_amended (s : SwarmState) (taskId : String) (now now2 : Nat)
    (h : (scheduleTask s taskId now).2 = none) :
    scheduleTask s taskId now = (s, none) ∧ scheduleTask s taskId now2 = (s, none) := by
  cases hget : mapGet s.tasks taskId with
  | none => constructor <;> simp [scheduleTask, hget]
  | some t =>
    by_cases hgate : (decide (t.dependencies.length > 0) &&
        decide ((unfinishedDependencies s t).length > 0)) = true
    · constructor <;> simp only [scheduleTask, hget, hgate, if_true]
    · have hgate' : (decide (t.dependencies.length > 0) &&
          decide ((unfinishedDependencies s t).length > 0)) = false := by
        simpa using hgate
      cases hsort : sortBy schedLE (scheduleCandidates s t) with
      | nil =>
        constructor <;>
          simp only [scheduleTask, hget, hgate', Bool.false_eq_true, if_false, hsort]
      | cons b rest =>
        exfalso
        have h2 : (scheduleTask s taskId now).2 = some
            ({ t with status := "assigned",
                      assignedAgents := t.assignedAgents ++ [b.id],
                      assignedAt := some now },
             { b with status := "busy", currentTask := some taskId, lastActive := now }) := by
          simp only [scheduleTask, hget, hgate', Bool.false_eq_true, if_false, hsort]
        rw [h] at h2
        exact Option.noConfusion h2

/-- Witness for the amended C3: scheduling the dependency-blocked task of
`c1State` is a `null` no-op, and so is the repeated call. -/
theorem claim3_idempotence_amended_witness :
    scheduleTask c1State "b" 3 = (c1State, none) ∧
    scheduleTask c1State "b" 9 = (c1State, none) :=
  claim3_idempotence_amended c1State "b" 3 9 (by decide)

/-- Concrete state for C6: agent `"ag"` busy on the assigned task `"T"`. -/
def c6State : SwarmState :=
  { swarms := [],
    agents := [("ag", { agent0 with id := "ag", status := "busy", currentTask := some "T" })],
    tasks := [("T", { task0 with id := "T", status := "assigned", assignedAgents := ["ag"] })] }

/-- The `{status: 'cancelled'}` patch. -/
def cancelledPatch : TaskUpdates := { status := some "cancelled", result := none, progress := none }

/-- C6 counterexample: cancelling task `"T"` leaves its assigned agent
`"ag"` busy with `currentTask` still set — the cancelled transition does
not release agents the way the failed transition does, refuting the claim. -/
theorem claim6_cancellation_counterexample :
    (mapGet (updateTaskStatus c6State "T" cancelledPatch 5).1.agents "ag").map
      (fun a => a.status) = some "busy" ∧
    (mapGet (updateTaskStatus c6State "T" cancelledPatch 5).1.agents "ag").map
      (fun a => a.currentTask) = some (some "T") ∧
    (mapGet (updateTaskStatus c6State "T" cancelledPatch 5).1.tasks "T").map
      (fun t => t.status) = some "cancelled" := by
  decide

/-- C6 amended: `updateTaskStatus(taskId, {status:'cancelled'})` has no
special handling at all — it matches neither the `completed` nor the
`failed` branch, so the patch is merely merged into the task: every agent
record (status, current task, memory) is left untouched, and no completion
memory entry is appended. -/
theorem claim6_cancellation_amended (s : SwarmState) (taskId : String) (u : TaskUpdates)
    (now : Nat) (hu : u.status = some "cancelled") :
    (updateTaskStatus s taskId u now).1.agents = s.agents ∧
    (updateTaskStatus s taskId u now).1.swarms = s.swarms ∧
    ∀ t0, mapGet s.tasks taskId = some t0 →
      (updateTaskStatus s taskId u now).1.tasks = mapSet s.tasks taskId (applyUpdates t0 u) := by
  have h1 : (u.status == some "completed") = false := by rw [hu]; decide
  have h2 : (u.status == some "failed") = false := by rw [hu]; decide
  cases hget : mapGet s.tasks taskId with
  | none =>
    refine ⟨by simp [updateTaskStatus, hget], by simp [updateTaskStatus, hget], ?_⟩
    intro t0 hget'
    exact Option.noConfusion hget'
  | some t0 =>
    refine ⟨?_, ?_, ?_⟩
    · simp only [updateTaskStatus, hget, h1, h2, Bool.false_eq_true, if_false]
    · simp only [updateTaskStatus, hget, h1, h2, Bool.false_eq_true, if_false]
    · intro t0' hget'
      injection hget' with he
      subst he
      simp only [updateTaskStatus, hget, h1, h2, Bool.false_eq_true, if_false]

/-- Witness for the amended C6 at the concrete busy-agent state. -/
theorem claim6_cancellation_amended_witness :
    (updateTaskStatus c6State "T" cancelledPatch 5).1.agents = c6State.agents ∧
    (updateTaskStatus c6State "T" cancelledPatch 5).1.swarms = c6State.swarms ∧
    ∀ t0, mapGet c6State.tasks "T" = some t0 →
      (updateTaskStatus c6State "T" cancelledPatch 5).1.tasks =
        mapSet c6State.tasks "T" (applyUpdates t0 cancelledPatch) :=
  claim6_cancellation_amended c6State "T" cancelledPatch 5 rfl

/-- The empty service state. -/
def emptyState : SwarmState := { swarms := [], agents := [], tasks := [] }

/-- A minimal agent spec with the given id. -/
def plainAgentConfig (i : String) : AgentConfig :=
  { id := i, name := none, type_ := none, capabilities := none, swarmId := none,
    memory := none, role := none, priority := none }

/-- `createSwarm` config with three initial agent specs. -/
def c5Config : SwarmConfig :=
  { id := "s", name := none, description := none, initialMemory := none, owner := none,
    agents := [plainAgentConfig "a1", plainAgentConfig "a2", plainAgentConfig "a3"] }

/-- The state after creating a swarm with three agent specs from empty. -/
def c5Result : SwarmState := (createSwarm emptyState c5Config 0).1

/-- C5 evaluation at the failing input: creating a swarm with 3 agent
specs double-counts every agent — `createAgent` already appends the id and
bumps `agentCount` (guarded against duplicates), then `createSwarm`
unconditionally appends and bumps again.  The swarm ends `ready` with
`agentCount = 6`, a roster holding each of the 3 ids twice (3 distinct
ids), while `getAgents` returns exactly the 3 agents — so `agentCount`
differs from the number of distinct roster ids, contradicting the claimed
invariant and the code's own dedup guard. -/
theorem claim5_swarm_roster_eval :
    (mapGet c5Result.swarms "s").map (fun sw => sw.agentCount) = some 6 ∧
    (mapGet c5Result.swarms "s").map (fun sw => sw.agents) =
      some ["a1", "a1", "a2", "a2", "a3", "a3"] ∧
    (mapGet c5Result.swarms "s").map (fun sw => sw.agents.dedup.length) = some 3 ∧
    (mapGet c5Result.swarms "s").map (fun sw => sw.status) = some "ready" ∧
    (getAgents c5Result (some "s")).map (fun a => a.id) = ["a1", "a2", "a3"] ∧
    (mapGet c5Result.swarms "s").map (fun sw => sw.agentCount) ≠ some 3 := by
  decide

theorem mapGet_mapDelete (m : List (String × α)) (k k' : String) :
    mapGet (mapDelete m k') k = if k = k' then none else mapGet m k := by
  induction m with
  | nil => rw [mapDelete, List.filter_nil, mapGet_nil]; split <;> rfl
  | cons p ps ih =>
    rw [mapDelete]
    by_cases hp : p.1 == k'
    · rw [List.filter_cons_of_neg (by simp [hp])]
      rw [← mapDelete, ih]
      by_cases hk : k = k'
      · rw [if_pos hk, if_pos hk]
      · rw [if_neg hk, if_neg hk, mapGet_cons,
          if_neg (by simp; intro he; exact hk (he ▸ (by simpa using hp)))]
    · rw [List.filter_cons_of_pos (by simp [hp])]
      rw [mapGet_cons, ← mapDelete]
      by_cases hpk : p.1 == k
      · have hkk' : ¬ k = k' := by
          intro he
          exact hp (by simp [← he]; simpa using hpk)
        rw [if_pos hpk, if_neg hkk', mapGet_cons, if_pos hpk]
      · rw [if_neg hpk, ih]
        by_cases hk : k = k'
        · rw [if_pos hk, if_pos hk]
        · rw [if_neg hk, if_neg hk, mapGet_cons, if_neg hpk]

theorem cancelTask_activeTasks_get (st : AServiceState) (tid k : String) :
    mapGet (cancelTask st tid).activeTasks k =
      if k = tid then none else mapGet st.activeTasks k := by
  unfold cancelTask
  cases hg : mapGet st.activeTasks tid with
  | none =>
    by_cases hk : k = tid
    · rw [if_pos hk, hk, hg]
    · rw [if_neg hk]
  | some task =>
    cases hga : mapGet ({ st with activeTasks := mapDelete st.activeTasks tid } :
        AServiceState).agents task.agentId with
    | none => simp only [hga, mapGet_mapDelete]
    | some agent => simp only [hga, mapGet_mapDelete]

/-- One pass of the `deleteAgent` active-task cancellation loop. -/
def deleteAgentLoop (agentId : String) (l : List ActiveTask) (acc : AServiceState) :
    AServiceState :=
  l.foldl (fun acc task => if task.agentId == agentId then cancelTask acc task.id else acc) acc

theorem deleteAgentLoop_get_none (agentId : String) (l : List ActiveTask)
    (acc : AServiceState) (k : String) (h : mapGet acc.activeTasks k = none) :
    mapGet (deleteAgentLoop agentId l acc).activeTasks k = none := by
  induction l generalizing acc with
  | nil => exact h
  | cons t l' ih =>
    rw [deleteAgentLoop, List.foldl_cons, ← deleteAgentLoop]
    apply ih
    by_cases hc : t.agentId == agentId
    · rw [if_pos hc, cancelTask_activeTasks_get]
      split
      · rfl
      · exact h
    · rw [if_neg hc]
      exact h

theorem deleteAgentLoop_get_or (agentId : String) (l : List ActiveTask)
    (acc : AServiceState) (k : String) :
    mapGet (deleteAgentLoop agentId l acc).activeTasks k = mapGet acc.activeTasks k ∨
      mapGet (deleteAgentLoop agentId l acc).activeTasks k = none := by
  induction l generalizing acc with
  | nil => exact Or.inl rfl
  | cons t l' ih =>
    rw [deleteAgentLoop, List.foldl_cons, ← deleteAgentLoop]
    by_cases hc : t.agentId == agentId
    · rw [if_pos hc]
      rcases ih (cancelTask acc t.id) with h | h
      · rw [cancelTask_activeTasks_get] at h
        by_cases hk : k = t.id
        · right
          rw [h, if_pos hk]
        · left
          rw [h, if_neg hk]
      · exact Or.inr h
    · rw [if_neg hc]
      exact ih acc

theorem deleteAgentLoop_deletes_matching (agentId : String) (l : List ActiveTask)
    (acc : AServiceState) (t : ActiveTask) (ht : t ∈ l) (hmatch : t.agentId = agentId) :
    mapGet (deleteAgentLoop agentId l acc).activeTasks t.id = none := by
  induction l generalizing acc with
  | nil => simp at ht
  | cons t' l' ih =>
    rw [deleteAgentLoop, List.foldl_cons, ← deleteAgentLoop]
    rcases List.mem_cons.mp ht with he | hmem
    · subst he
      rw [if_pos (by simp [hmatch])]
      apply deleteAgentLoop_get_none
      rw [cancelTask_activeTasks_get, if_pos rfl]
    · exact ih _ hmem

/-- The empty `AgentService` state. -/
def emptyAState : AServiceState := { agents := [], activeTasks := [] }

/-- C7 counterexample: `deleteAgent` on an unknown id throws
`Agent a not found` — it does not return `false`, refuting the claimed
error-handling behavior. -/
theorem claim7_delete_agent_counterexample :
    deleteAgent emptyAState "a" = Except.error "Agent a not found" := by
  rfl

/-- C7 amended: `deleteAgent(id)` throws `Agent {id} not found` when the
agent does not exist (it never returns `false`); when the agent exists it
cancels every active task assigned to the agent — each such record is
marked `cancelled` and removed from `activeTasks`, never transitioned back
to `pending` (remaining records are untouched) — then removes the agent
record and returns `true`. -/
theorem claim7_delete_agent_amended (st : AServiceState) (agentId : String) :
    (mapGet st.agents agentId = none →
      deleteAgent st agentId = Except.error ("Agent " ++ agentId ++ " not found")) ∧
    (∀ a, mapGet st.agents agentId = some a →
      ∃ st1, deleteAgent st agentId = Except.ok (st1, true) ∧
        mapGet st1.agents agentId = none ∧
        (∀ t ∈ mapValues st.activeTasks, t.agentId = agentId →
          mapGet st1.activeTasks t.id = none) ∧
        (∀ k, mapGet st1.activeTasks k = mapGet st.activeTasks k ∨
          mapGet st1.activeTasks k = none)) := by
  constructor
  · intro h
    simp only [deleteAgent, h]
  · intro a h
    refine ⟨{ deleteAgentLoop agentId (mapValues st.activeTasks) st with
        agents := mapDelete (deleteAgentLoop agentId (mapValues st.activeTasks) st).agents
          agentId }, ?_, ?_, ?_, ?_⟩
    · simp only [deleteAgent, h]
      rfl
    · rw [mapGet_mapDelete, if_pos rfl]
    · intro t ht hmatch
      exact deleteAgentLoop_deletes_matching agentId (mapValues st.activeTasks) st t ht hmatch
    · intro k
      exact deleteAgentLoop_get_or agentId (mapValues st.activeTasks) st k

/-- Concrete state for the C7 witness: agent `"ag"` with a running active
task `"T"`. -/
def c7Agent : AAgent :=
  { id := "ag", status := "busy", swarmId := none, createdAt := 0, lastActive := 0,
    tasksCompleted := 0, averageResponseTime := 0, capabilities := [], memory := [] }

/-- The active task of the C7 witness state. -/
def c7ActiveTask : ActiveTask :=
  { id := "T", agentId := "ag", status := "running", startTime := 0, endTime := none,
    result := none, error := none }

/-- The C7 witness state. -/
def c7State : AServiceState :=
  { agents := [("ag", c7Agent)], activeTasks := [("T", c7ActiveTask)] }

/-- Witness for the amended C7: deleting agent `"ag"` succeeds with `true`,
removes the agent, and removes its matching active task. -/
theorem claim7_delete_agent_amended_witness :
    ∃ st1, deleteAgent c7State "ag" = Except.ok (st1, true) ∧
      mapGet st1.agents "ag" = none ∧
      (∀ t ∈ mapValues c7State.activeTasks, t.agentId = "ag" →
        mapGet st1.activeTasks t.id = none) ∧
      (∀ k, mapGet st1.activeTasks k = mapGet c7State.activeTasks k ∨
        mapGet st1.activeTasks k = none) :=
  (claim7_delete_agent_amended c7State "ag").2 c7Agent (by decide)

theorem memPush_eq_drop (m : List MemEntry) (e : MemEntry) :
    memPush m e = (m ++ [e]).drop ((m ++ [e]).length - 100) := by
  simp only [memPush]
  split
  · rfl
  · rename_i h
    rw [show (m ++ [e]).length - 100 = 0 by omega, List.drop_zero]

theorem aMemPush_eq_drop (m : List AMemEntry) (e : AMemEntry) :
    aMemPush m e = (m ++ [e]).drop ((m ++ [e]).length - 100) := by
  simp only [aMemPush]
  split
  · rfl
  · rename_i h
    rw [show (m ++ [e]).length - 100 = 0 by omega, List.drop_zero]

theorem foldl_memPush_drop (es : List MemEntry) :
    es.foldl memPush [] = es.drop (es.length - 100) := by
  induction es using List.reverseRecOn with
  | nil => rfl
  | append_singleton l e ih =>
    rw [List.foldl_append, List.foldl_cons, List.foldl_nil, ih, memPush_eq_drop]
    by_cases h : l.length ≤ 99
    · have h1 : l.length - 100 = 0 := by omega
      have h2 : (l ++ [e]).length - 100 = 0 := by simp; omega
      have h3 : (l.drop 0 ++ [e]).length - 100 = 0 := by simp; omega
      rw [h1, h2, h3, List.drop_zero, List.drop_zero, List.drop_zero]
    · have hlen : (l.drop (l.length - 100)).length = 100 := by
        rw [List.length_drop]; omega
      have h3 : (l.drop (l.length - 100) ++ [e]).length - 100 = 1 := by
        simp [hlen]
      have hle1 : 1 ≤ (l.drop (l.length - 100)).length := by rw [List.length_drop]; omega
      rw [h3, List.drop_append_of_le_length hle1, List.drop_drop]
      have h4 : (l ++ [e]).length - 100 = l.length - 99 := by
        simp only [List.length_append, List.length_cons, List.length_nil]
        omega
      have hle2 : l.length - 99 ≤ l.length := by omega
      rw [h4, List.drop_append_of_le_length hle2,
        show l.length - 100 + 1 = l.length - 99 from by omega]

/-- A fixed memory entry for concrete memory states. -/
def memEntry0 : MemEntry := { taskId := "t", type_ := "general", result := none, timestamp := 0 }

/-- `createAgent` config seeding an initial memory of 101 entries
(`memory: config.memory || []` accepts it unchecked). -/
def c8Config : AgentConfig :=
  { plainAgentConfig "a" with memory := some (List.replicate 101 memEntry0) }

/-- C8 counterexample: `createAgent` stores the seeded 101-entry memory
as-is, so immediately after this operation an agent's memory exceeds 100
entries — "at most 100 entries after any operation" fails. -/
theorem claim8_memory_cap_counterexample :
    (mapGet (createAgent emptyState c8Config 0).1.agents "a").map
      (fun a => a.memory.length) = some 101 ∧
    ¬ (∀ a ∈ mapValues (createAgent emptyState c8Config 0).1.agents,
        a.memory.length ≤ 100) := by
  constructor
  · decide
  · decide

/-- C8 amended: every memory *append* respects the cap — the push-then-cap
step always keeps exactly the most recent 100 entries in order (oldest
evicted first), both in `SwarmService.updateTaskStatus` (`memPush`) and in
`AgentService.executeTask` (`aMemPush`); consequently an agent whose
memory is within the cap stays within it, and appending 150 entries to an
initially empty memory leaves exactly entries 50..149, oldest first.  Only
`createAgent`'s unchecked initial-memory seeding can exceed the cap (see
the counterexample). -/
theorem claim8_memory_cap_amended :
    (∀ (m : List MemEntry) (e : MemEntry),
      memPush m e = (m ++ [e]).drop ((m ++ [e]).length - 100)) ∧
    (∀ (m : List MemEntry) (e : MemEntry), m.length ≤ 100 →
      (memPush m e).length ≤ 100) ∧
    (∀ (m : List AMemEntry) (e : AMemEntry), m.length ≤ 100 →
      (aMemPush m e).length ≤ 100) ∧
    (∀ es : List MemEntry, es.length = 150 → es.foldl memPush [] = es.drop 50) := by
  refine ⟨memPush_eq_drop, ?_, ?_, ?_⟩
  · intro m e hm
    rw [memPush_eq_drop, List.length_drop]
    simp only [List.length_append, List.length_cons, List.length_nil]
    omega
  · intro m e hm
    rw [aMemPush_eq_drop, List.length_drop]
    simp only [List.length_append, List.length_cons, List.length_nil]
    omega
  · intro es hes
    rw [foldl_memPush_drop, hes]

/-- 150 distinguishable memory entries. -/
def c8Entries : List MemEntry :=
  (List.range 150).map (fun i => { memEntry0 with timestamp := i })

set_option maxRecDepth 8000 in
/-- Witness for the amended C8: a concrete full-cap append stays at 100
entries (for both services), and folding 150 concrete entries from empty
leaves exactly the 100 most recent. -/
theorem claim8_memory_cap_amended_witness :
    (memPush (List.replicate 100 memEntry0) memEntry0).length ≤ 100 ∧
    (aMemPush (List.replicate 100 { task := "t", context := "", result := "", timestamp := 0 })
      { task := "t", context := "", result := "", timestamp := 0 }).length ≤ 100 ∧
    c8Entries.foldl memPush [] = c8Entries.drop 50 :=
  ⟨claim8_memory_cap_amended.2.1 (List.replicate 100 memEntry0) memEntry0 (by decide),
   claim8_memory_cap_amended.2.2.1 _ _ (by decide),
   claim8_memory_cap_amended.2.2.2 c8Entries (by decide)⟩

theorem emitLocal_countP (subs : List (String × Nat)) (t d : String) (hid : Nat) :
    (emitLocal subs t d).countP (fun x => x.1 == hid) =
      subs.countP (fun p => p.1 == t && p.2 == hid) := by
  induction subs with
  | nil => rfl
  | cons p ps ih =>
    unfold emitLocal
    unfold emitLocal at ih
    by_cases hp : p.1 == t
    · rw [List.filter_cons, if_pos hp, List.map_cons, List.countP_cons, List.countP_cons, ih]
      simp [hp]
    · rw [List.filter_cons, if_neg hp, List.countP_cons, ih]
      simp [hp]

/-- C9 (echo suppression): on an inbound distributed message,
`SwarmEventBus.handleRedisMessage` drops the event entirely (no local
delivery, no re-broadcast) when its `sourceInstanceId` equals the receiving
instance's own id; otherwise it never re-broadcasts and delivers the event
exactly once per local registration of its exact type. -/
theorem claim9_echo_suppression (instanceId : String) (subs : List (String × Nat))
    (event : BusEvent) :
    (event.sourceInstanceId = some instanceId →
      handleRedisMessage instanceId subs event = ([], [])) ∧
    (event.sourceInstanceId ≠ some instanceId →
      (handleRedisMessage instanceId subs event).2 = [] ∧
      ∀ hid : Nat,
        ((handleRedisMessage instanceId subs event).1.countP (fun x => x.1 == hid)) =
          subs.countP (fun p => p.1 == event.type_ && p.2 == hid)) := by
  constructor
  · intro h
    unfold handleRedisMessage
    rw [if_pos (by simp [h])]
  · intro h
    have hc : (event.sourceInstanceId == some instanceId) = false := by
      simp [h]
    unfold handleRedisMessage
    rw [if_neg (by simp [hc])]
    exact ⟨rfl, fun hid => emitLocal_countP subs event.type_ event.data hid⟩

/-- A concrete inbound event from another instance. -/
def c9Event : BusEvent :=
  { id := "e1", type_ := "task:created", data := "d", timestamp := 1,
    sourceInstanceId := some "other" }

/-- Witness for C9: instance `"x"` receives an event originating from
instance `"other"` — nothing is re-broadcast and each registration of the
event's type receives it exactly once. -/
theorem claim9_echo_suppression_witness :
    (handleRedisMessage "x" [("task:created", 0), ("agent:created", 1)] c9Event).2 = [] ∧
    ∀ hid : Nat,
      ((handleRedisMessage "x" [("task:created", 0), ("agent:created", 1)] c9Event).1.countP
        (fun x => x.1 == hid)) =
      ([("task:created", 0), ("agent:created", 1)] : List (String × Nat)).countP
        (fun p => p.1 == c9Event.type_ && p.2 == hid) :=
  (claim9_echo_suppression "x" [("task:created", 0), ("agent:created", 1)] c9Event).2
    (by decide)

/-- C10 (implicit): a `SwarmService` never assigns `this.instanceId`
(always `undefined`) and `publishEvent` serializes events without a
`sourceInstanceId` field, so `handleRedisEvent`'s echo check compares
`undefined === undefined`, holds for every inbound event lacking the
field — even one published by a different instance — and the event is
dropped without any local emission. -/
theorem claim10_swarm_receive_drops_all (subs : List (String × Nat))
    (event : BusEvent) (eventId eventType data : String) (now : Nat)
    (h : event.sourceInstanceId = none) :
    handleRedisEvent swarmServiceInstanceId subs event = [] ∧
    (swarmPublishRedisPayload eventId eventType data now).sourceInstanceId = none := by
  constructor
  · unfold handleRedisEvent
    rw [if_pos (by simp [h, swarmServiceInstanceId])]
  · rfl

/-- A concrete inbound event without a `sourceInstanceId` field, as another
`SwarmService` instance would publish it. -/
def c10Event : BusEvent :=
  { id := "e2", type_ := "task:created", data := "d", timestamp := 2,
    sourceInstanceId := none }

/-- Witness for C10: an event published by a different `SwarmService`
instance (hence without `sourceInstanceId`) is dropped even though a local
subscriber for its type exists, and locally published events indeed carry
no `sourceInstanceId`. -/
theorem claim10_swarm_receive_drops_all_witness :
    handleRedisEvent swarmServiceInstanceId [("task:created", 0)] c10Event = [] ∧
    (swarmPublishRedisPayload "e3" "task:created" "d" 2).sourceInstanceId = none :=
  claim10_swarm_receive_drops_all [("task:created", 0)] c10Event "e3" "task:created" "d" 2 rfl

/-- Well-formedness of the task map: unique keys, and each task record's
`id` equals its key (as every constructor of the service guarantees). -/
def tasksWF (m : List (String × Task)) : Prop :=
  keysUnique m ∧ ∀ p ∈ m, p.2.id = p.1

theorem mapGet_mem (m : List (String × α)) (k : String) (v : α)
    (h : mapGet m k = some v) : (k, v) ∈ m := by
  unfold mapGet at h
  cases hf : m.find? (fun p => p.1 == k) with
  | none => rw [hf] at h; exact Option.noConfusion h
  | some p =>
    rw [hf] at h
    injection h with hv
    have hp := List.find?_some hf
    have hmem := List.mem_of_find?_eq_some hf
    have hk : p.1 = k := by simpa using hp
    have : p = (k, v) := by
      cases p
      simp only at hk hv
      rw [hk, hv]
    exact this ▸ hmem

theorem tasksWF_mapSet (m : List (String × Task)) (k : String) (v : Task)
    (h : tasksWF m) (hv : v.id = k) : tasksWF (mapSet m k v) := by
  refine ⟨keysUnique_mapSet m k v h.1, ?_⟩
  intro p hp
  unfold mapSet at hp
  by_cases hany : m.any (fun q => q.1 == k)
  · rw [if_pos hany] at hp
    rcases List.mem_map.mp hp with ⟨q, hq, he⟩
    by_cases hqk : q.1 == k
    · rw [← he, if_pos hqk]
      exact hv
    · rw [← he, if_neg hqk]
      exact h.2 q hq
  · rw [if_neg hany] at hp
    rcases List.mem_append.mp hp with hm | hs
    · exact h.2 p hm
    · simp at hs
      rw [hs]
      exact hv

/-- `scheduleTask` either leaves the task map unchanged, or replaces
exactly the entry of its argument id by a record with the same `id`. -/
theorem scheduleTask_tasks_cases (s : SwarmState) (k : String) (now : Nat) :
    (scheduleTask s k now).1.tasks = s.tasks ∨
    ∃ task tk2, mapGet s.tasks k = some task ∧ tk2.id = task.id ∧
      (scheduleTask s k now).1.tasks = mapSet s.tasks k tk2 := by
  cases hget : mapGet s.tasks k with
  | none =>
    left
    simp only [scheduleTask, hget]
  | some task =>
    by_cases hgate : (decide (task.dependencies.length > 0) &&
        decide ((unfinishedDependencies s task).length > 0)) = true
    · left
      simp only [scheduleTask, hget, hgate, if_true]
    · have hgate' : (decide (task.dependencies.length > 0) &&
          decide ((unfinishedDependencies s task).length > 0)) = false := by
        simpa using hgate
      cases hsort : sortBy schedLE (scheduleCandidates s task) with
      | nil =>
        left
        simp only [scheduleTask, hget, hgate', Bool.false_eq_true, if_false, hsort]
      | cons best rest =>
        right
        exact ⟨task,
          { task with status := "assigned", assignedAgents := task.assignedAgents ++ [best.id], assignedAt := some now },
          rfl, rfl,
          by simp only [scheduleTask, hget, hgate', Bool.false_eq_true, if_false, hsort]⟩

/-- One step of the `checkDependentTasks` loop body. -/
def depStep (now : Nat) (st : SwarmState) (task : Task) : SwarmState :=
  if (unfinishedDependencies st task).length == 0 then
    (scheduleTask st task.id now).1
  else st

theorem depStep_preserves (now : Nat) (tid : String) (tk : Task) (acc : SwarmState)
    (d : Task) (hd : d.id ≠ tid) (hwf : tasksWF acc.tasks)
    (hget : mapGet acc.tasks tid = some tk) :
    tasksWF (depStep now acc d).tasks ∧
      mapGet (depStep now acc d).tasks tid = some tk := by
  unfold depStep
  by_cases hc : (unfinishedDependencies acc d).length == 0
  · rw [if_pos hc]
    rcases scheduleTask_tasks_cases acc d.id now with heq | ⟨task, tk2, hg, hid, heq⟩
    · rw [heq]
      exact ⟨hwf, hget⟩
    · have htaskid : task.id = d.id := hwf.2 (d.id, task) (mapGet_mem acc.tasks d.id task hg)
      rw [heq]
      constructor
      · exact tasksWF_mapSet acc.tasks d.id tk2 hwf (hid.trans htaskid)
      · rw [mapGet_mapSet_ne acc.tasks d.id tid tk2 (Ne.symm hd)]
        exact hget
  · rw [if_neg hc]
    exact ⟨hwf, hget⟩

theorem depFold_preserves (now : Nat) (tid : String) (tk : Task) (l : List Task) :
    ∀ acc : SwarmState, (∀ d ∈ l, d.id ≠ tid) → tasksWF acc.tasks →
      mapGet acc.tasks tid = some tk →
      mapGet (l.foldl (depStep now) acc).tasks tid = some tk := by
  induction l with
  | nil => intro acc _ _ hget; exact hget
  | cons d l' ih =>
    intro acc hall hwf hget
    rw [List.foldl_cons]
    have hstep := depStep_preserves now tid tk acc d (hall d (List.mem_cons_self d l')) hwf hget
    exact ih (depStep now acc d) (fun e he => hall e (List.mem_cons_of_mem d he))
      hstep.1 hstep.2

theorem checkDependentTasks_preserves_completed (st : SwarmState) (cid : String)
    (now : Nat) (tid : String) (tk : Task) (hwf : tasksWF st.tasks)
    (hget : mapGet st.tasks tid = some tk) (hst : tk.status = "completed") :
    mapGet (checkDependentTasks st cid now).tasks tid = some tk := by
  have hfold : checkDependentTasks st cid now =
      ((mapValues st.tasks).filter (fun task =>
        task.dependencies.contains cid && task.status == "pending")).foldl
        (depStep now) st := rfl
  rw [hfold]
  apply depFold_preserves now tid tk _ st _ hwf hget
  intro d hdmem
  have hpend : (d.status == "pending") = true := by
    have h2 := (List.mem_filter.mp hdmem).2
    simp only [Bool.and_eq_true] at h2
    exact h2.2
  rcases (mem_mapValues st.tasks d).mp (List.mem_filter.mp hdmem).1 with ⟨k, hkmem⟩
  have hidk : d.id = k := hwf.2 (k, d) hkmem
  intro he
  have hkd : (tid, d) ∈ st.tasks := by
    rw [← hidk, he] at hkmem
    exact hkmem
  have hgd : mapGet st.tasks tid = some d :=
    mapGet_eq_some_of_mem_unique st.tasks tid d hwf.1 hkd
  rw [hget] at hgd
  injection hgd with hdk
  rw [hdk] at hst
  rw [hst] at hpend
  exact absurd hpend (by decide)


theorem releaseFold_not_mem (t : Task) (taskId : String) (now : Nat) (l : List String)
    (aid : String) (h : aid ∉ l) :
    ∀ ags, mapGet (l.foldl (releaseStep t taskId now) ags) aid = mapGet ags aid := by
  induction l with
  | nil => intro ags; rfl
  | cons b l' ih =>
    intro ags
    rw [List.foldl_cons]
    have hb : aid ≠ b := fun he => h (he ▸ List.mem_cons_self b l')
    have hl' : aid ∉ l' := fun hm => h (List.mem_cons_of_mem b hm)
    rw [ih hl']
    unfold releaseStep
    cases hg : mapGet ags b with
    | none => rfl
    | some agent => rw [mapGet_mapSet_ne ags b aid _ hb]

theorem releaseFold_get (t : Task) (taskId : String) (now : Nat) (l : List String)
    (hnd : l.Nodup) (aid : String) (hm : aid ∈ l) :
    ∀ ags a, mapGet ags aid = some a →
      mapGet (l.foldl (releaseStep t taskId now) ags) aid =
        some (releasedAgent t taskId now a) := by
  induction l with
  | nil => intro ags a _; simp at hm
  | cons b l' ih =>
    intro ags a hget
    rw [List.foldl_cons]
    rcases List.mem_cons.mp hm with he | hm'
    · subst he
      have hnotin : aid ∉ l' := (List.nodup_cons.mp hnd).1
      rw [releaseFold_not_mem t taskId now l' aid hnotin]
      unfold releaseStep
      rw [hget, mapGet_mapSet_self]
    · have hb : aid ≠ b := by
        intro he
        exact (List.nodup_cons.mp hnd).1 (he ▸ hm')
      apply ih (List.nodup_cons.mp hnd).2 hm'
      unfold releaseStep
      cases hg : mapGet ags b with
      | none => exact hget
      | some agent =>
        rw [mapGet_mapSet_ne ags b aid _ (by exact hb)]
        exact hget

/-- Per-agent effect of the completion release loop: under a duplicate-free
`assignedAgents` list, every listed agent present in the map ends idle with
its task cleared and the completion memory entry appended. -/
theorem releaseAssignedAgents_get (st : SwarmState) (t : Task) (taskId : String)
    (now : Nat) (hnd : t.assignedAgents.Nodup) (aid : String)
    (hmem : aid ∈ t.assignedAgents) (a : Agent) (hget : mapGet st.agents aid = some a) :
    mapGet (releaseAssignedAgents st t taskId now).agents aid =
      some (releasedAgent t taskId now a) := by
  exact releaseFold_get t taskId now t.assignedAgents hnd aid hmem st.agents a hget

/-- The busy agent of the C4 scenario. -/
def c4AgentBusy : Agent := { agent0 with id := "ag", status := "busy", currentTask := some "A" }

/-- Task `A` of the C4 scenario: assigned to agent `"ag"`. -/
def c4TaskA : Task :=
  { task0 with id := "A", status := "assigned", assignedAgents := ["ag"], assignedAt := some 1 }

/-- Concrete state for the C4 scenario: agent `"ag"` busy on task `A`,
task `B` pending with `dependencies = [A]`. -/
def c4State : SwarmState :=
  { swarms := [],
    agents := [("ag", c4AgentBusy)],
    tasks := [("A", c4TaskA), ("B", { task0 with id := "B", dependencies := ["A"] })] }

/-- The `{status:'completed', result}` patch of the C4 scenario. -/
def completedPatch : TaskUpdates :=
  { status := some "completed", result := some "ok", progress := none }

/-- The state after completing task `A` in the C4 scenario. -/
def c4Final : SwarmState := (updateTaskStatus c4State "A" completedPatch 5).1

/-- C4 (completion effects): `updateTaskStatus(taskId, {status:'completed',
result})` (1) merges the patch and sets `completedAt`, storing and
returning the completed record; (2) sets every agent listed in the task's
`assignedAgents` to idle with its current task cleared and a completion
memory entry `{taskId, type, result, timestamp}` appended under the cap
(the `releaseAssignedAgents` loop it runs before re-evaluating
dependents); and (3) then re-evaluates pending dependents, so in the
concrete A/B scenario — `B` depending only on `A`, with `A`'s agent the
eligible idle candidate after release — completing `A` leaves `B`
`assigned` to that agent in the same logical step. -/
theorem claim4_completion_effects :
    (∀ (s : SwarmState) (taskId : String) (u : TaskUpdates) (now : Nat) (t0 : Task),
      tasksWF s.tasks → mapGet s.tasks taskId = some t0 → u.status = some "completed" →
      (updateTaskStatus s taskId u now).2 =
        some { applyUpdates t0 u with completedAt := some now } ∧
      mapGet (updateTaskStatus s taskId u now).1.tasks taskId =
        some { applyUpdates t0 u with completedAt := some now }) ∧
    (∀ (st : SwarmState) (t : Task) (taskId : String) (now : Nat) (aid : String) (a : Agent),
      t.assignedAgents.Nodup → aid ∈ t.assignedAgents → mapGet st.agents aid = some a →
      mapGet (releaseAssignedAgents st t taskId now).agents aid =
        some (releasedAgent t taskId now a)) ∧
    ((mapGet c4Final.tasks "A").map (fun tk => tk.status) = some "completed" ∧
     (mapGet c4Final.tasks "B").map (fun tk => tk.status) = some "assigned" ∧
     (mapGet c4Final.tasks "B").map (fun tk => tk.assignedAgents) = some ["ag"] ∧
     (mapGet c4Final.agents "ag").map (fun a => a.currentTask) = some (some "B") ∧
     (mapGet c4Final.agents "ag").map (fun a => a.memory.length) = some 1) := by
  refine ⟨?_, ?_, ?_⟩
  · intro s taskId u now t0 hwf hget hu
    have hc : (u.status == some "completed") = true := by rw [hu]; rfl
    have hid : t0.id = taskId := hwf.2 (taskId, t0) (mapGet_mem s.tasks taskId t0 hget)
    have htask2id : ({ applyUpdates t0 u with completedAt := some now } : Task).id = taskId := by
      simp only [applyUpdates]
      exact hid
    constructor
    · simp only [updateTaskStatus, hget, hc, if_true]
    · simp only [updateTaskStatus, hget, hc, if_true]
      apply checkDependentTasks_preserves_completed
      · show tasksWF (mapSet s.tasks taskId { applyUpdates t0 u with completedAt := some now })
        exact tasksWF_mapSet s.tasks taskId _ hwf htask2id
      · show mapGet (mapSet s.tasks taskId
          { applyUpdates t0 u with completedAt := some now }) taskId = some _
        exact mapGet_mapSet_self s.tasks taskId _
      · show ({ applyUpdates t0 u with completedAt := some now } : Task).status = "completed"
        simp only [applyUpdates, hu]
        rfl
  · intro st t taskId now aid a hnd hmem hget
    exact releaseAssignedAgents_get st t taskId now hnd aid hmem a hget
  · refine ⟨?_, ?_, ?_, ?_, ?_⟩ <;> decide

/-- Witness for C4: completing task `A` of the concrete scenario returns
and stores the completed record, and the release loop turns the busy agent
idle with the completion memory entry appended. -/
theorem claim4_completion_effects_witness :
    ((updateTaskStatus c4State "A" completedPatch 5).2 =
        some { applyUpdates c4TaskA completedPatch with completedAt := some 5 } ∧
      mapGet (updateTaskStatus c4State "A" completedPatch 5).1.tasks "A" =
        some { applyUpdates c4TaskA completedPatch with completedAt := some 5 }) ∧
    mapGet (releaseAssignedAgents c4State c4TaskA "A" 5).agents "ag" =
      some (releasedAgent c4TaskA "A" 5 c4AgentBusy) :=
  ⟨claim4_completion_effects.1 c4State "A" completedPatch 5 c4TaskA
      (by unfold tasksWF; decide) (by decide) rfl,
   claim4_completion_effects.2.1 c4State c4TaskA "A" 5 "ag" c4AgentBusy
      (by decide) (by decide) (by decide)⟩
